import Mathlib

/-!
# Verification of the jambonz-ui component helpers

Shallow embedding of `src/components/jambonz-ui.js`: the string/array
normalizers (`normalizeSubtext`, `normalizeSlug`, `normalizeTextLayout`),
the media-query hook (`useMatchMedia`), and the class-name composition
used by `Button`, `Icon` and `Latest`.  JavaScript strings are modelled
as `List Char` (wrapped back into Lean `String`s), JavaScript values as
the inductive `JSValue`, and fallible JavaScript evaluation (method
calls that can raise `TypeError`) as `Except String`.
-/

/-- JavaScript runtime values, as far as the helpers of jambonz-ui.js
inspect them: the only structural test the module performs on its data
is `Array.isArray`. -/
inductive JSValue where
  | undef
  | null
  | jsBool (b : Bool)
  | num (n : Int)
  | str (s : String)
  | arr (elems : List JSValue)

/-- `Array.isArray(v)`. -/
def isJsArray : JSValue → Bool
  | .arr _ => true
  | _ => false

/-- `normalizeSubtext` (jambonz-ui.js lines 9-15): if the argument is not
an array it is wrapped in a one-element array, otherwise it is returned
unchanged. -/
def normalizeSubtext (subtext : JSValue) : JSValue :=
  if isJsArray subtext then subtext else .arr [subtext]

/-- `String.prototype.split` with a one-character separator, on the code
points of the string: splitting at every occurrence of `sep`, keeping
empty pieces, and yielding one empty piece on the empty string — exactly
the JavaScript behaviour of `s.split(' ')`. -/
def jsSplit (sep : Char) : List Char → List (List Char)
  | [] => [[]]
  | c :: cs =>
    match jsSplit sep cs with
    | [] => [[]]
    | w :: ws => if c = sep then [] :: w :: ws else (c :: w) :: ws

/-- `Array.prototype.join` with a one-character separator. -/
def jsJoin (sep : Char) : List (List Char) → List Char
  | [] => []
  | [w] => w
  | w :: ws => w ++ sep :: jsJoin sep ws

/-- Per-code-point lower-casing, as `String.prototype.toLowerCase` acts
on the ASCII strings this module handles. -/
def jsToLower (l : List Char) : List Char := l.map Char.toLower

/-- `normalizeSlug` (jambonz-ui.js lines 18-20):
`String(key.toLowerCase()).split(' ').join('-')` for a string `key`
(the outer `String(...)` is the identity on a string). -/
def normalizeSlug (key : String) : String :=
  ⟨jsJoin '-' (jsSplit ' ' (jsToLower key.data))⟩

/-- Does a character fall in the regex character class `[1-6]`? -/
def isHeadDigit (c : Char) : Bool := decide ('1' ≤ c) && decide (c ≤ '6')

/-- The replacement text an opening heading tag is rewritten to:
`<div class="hN">` for heading digit `d`. -/
def openIns (d : Char) : List Char :=
  ['<', 'd', 'i', 'v', ' ', 'c', 'l', 'a', 's', 's', '=', '"', 'h', d, '"', '>']

/-- The replacement text a closing heading tag is rewritten to:
`</div>`. -/
def closeIns : List Char :=
  ['<', '/', 'd', 'i', 'v', '>']

/-- The first `replace` of `normalizeTextLayout` (line 25): the global
regex `<(h[1-6])>` scanned left to right; on a match the four matched
characters are replaced by `openIns` and scanning resumes after the
match, otherwise one character is copied and scanning advances. -/
def replaceOpenH : List Char → List Char
  | a :: b :: c :: d :: rest2 =>
    if a == '<' && b == 'h' && isHeadDigit c && d == '>' then
      openIns c ++ replaceOpenH rest2
    else a :: replaceOpenH (b :: c :: d :: rest2)
  | a :: rest => a :: replaceOpenH rest
  | [] => []

/-- The second `replace` of `normalizeTextLayout` (line 28): the global
regex `</(h[1-6])>`, with the five matched characters replaced by
`closeIns`. -/
def replaceCloseH : List Char → List Char
  | a :: b :: c :: d :: e :: rest2 =>
    if a == '<' && b == '/' && c == 'h' && isHeadDigit d && e == '>' then
      closeIns ++ replaceCloseH rest2
    else a :: replaceCloseH (b :: c :: d :: e :: rest2)
  | a :: rest => a :: replaceCloseH rest
  | [] => []

/-- Does the open-heading pattern `<h[1-6]>` match at the head of the
list? -/
def openMatchAt : List Char → Bool
  | a :: b :: c :: d :: _ => a == '<' && b == 'h' && isHeadDigit c && d == '>'
  | _ => false

/-- Does the close-heading pattern `</h[1-6]>` match at the head of the
list? -/
def closeMatchAt : List Char → Bool
  | a :: b :: c :: d :: e :: _ =>
    a == '<' && b == '/' && c == 'h' && isHeadDigit d && e == '>'
  | _ => false

/-- `normalizeTextLayout` (jambonz-ui.js lines 23-31): the two chained
global replaces. -/
def normalizeTextLayout (html : String) : String :=
  ⟨replaceCloseH (replaceOpenH html.data)⟩

/-- Modelled from the spec statement of the rewrite: one left-to-right
scan that replaces each occurrence of the exact pattern `<hN>` (N in
1..6) by the opening container tag carrying class `hN`, each occurrence
of `</hN>` by the closing container tag, and copies every other
character unchanged. -/
def specHeadingRewrite : List Char → List Char
  | a :: b :: c :: d :: e :: rest3 =>
    if a == '<' && b == 'h' && isHeadDigit c && d == '>' then
      openIns c ++ specHeadingRewrite (e :: rest3)
    else if a == '<' && b == '/' && c == 'h' && isHeadDigit d && e == '>' then
      closeIns ++ specHeadingRewrite rest3
    else a :: specHeadingRewrite (b :: c :: d :: e :: rest3)
  | a :: b :: c :: d :: rest2 =>
    if a == '<' && b == 'h' && isHeadDigit c && d == '>' then
      openIns c ++ specHeadingRewrite rest2
    else a :: specHeadingRewrite (b :: c :: d :: rest2)
  | a :: rest => a :: specHeadingRewrite rest
  | [] => []

/-- Did a modelled JavaScript evaluation complete without raising? -/
def exceptOk {α : Type} : Except String α → Bool
  | .ok _ => true
  | .error _ => false

/-- `normalizeSubtext` under JavaScript evaluation: it only applies
`Array.isArray` and array construction, so it never raises. -/
def normalizeSubtextJS (v : JSValue) : Except String JSValue :=
  .ok (normalizeSubtext v)

/-- `normalizeSlug` under JavaScript evaluation: its first step is the
method call `key.toLowerCase()`, which raises a `TypeError` whenever
`key` is not a string; on a string the rest of the pipeline is total. -/
def normalizeSlugJS : JSValue → Except String JSValue
  | .str s => .ok (.str (normalizeSlug s))
  | _ => .error "TypeError: key.toLowerCase is not a function"

/-- `normalizeTextLayout` under JavaScript evaluation: its first step is
the method call `html.replace(...)`, which raises a `TypeError` whenever
`html` is not a string. -/
def normalizeTextLayoutJS : JSValue → Except String JSValue
  | .str s => .ok (.str (normalizeTextLayout s))
  | _ => .error "TypeError: html.replace is not a function"

/-- The observable state of one `useMatchMedia` hook instance: the
current `useState` value, and the query of the media-query list the
change listener is currently registered on (`none` when no listener is
registered). -/
structure HookState where
  mobile : Bool
  listener : Option String
deriving DecidableEq

/-- `useState(false)` (line 40): the state before the mount effect has
run. -/
def hookInit : HookState := ⟨false, none⟩

/-- The mount effect (lines 46-56): `window.matchMedia(mediaQuery)`,
then `addEventListener`, then `setMobile(mql.matches)`.  `env` is the
platform: its current answer for each query string. -/
def mountEffect (env : String → Bool) (mediaQuery : String) (_s : HookState) : HookState :=
  { mobile := env mediaQuery, listener := some mediaQuery }

/-- `handleMedia` (lines 42-44) driven by a platform change event on
query `q` reporting `matches`: `setMobile(e.matches)` runs exactly when
the listener is registered on that query. -/
def handleChange (q : String) (mt : Bool) (s : HookState) : HookState :=
  if s.listener = some q then { s with mobile := mt } else s

/-- The effect cleanup (lines 53-55): `removeEventListener`. -/
def cleanup (s : HookState) : HookState := { s with listener := none }

/-- A sequence of platform change events applied in order. -/
def applyEvents (evs : List (String × Bool)) (s : HookState) : HookState :=
  evs.foldl (fun st e => handleChange e.1 e.2 st) s

/-- A re-render with a changed query string: per the effect dependency
list (line 56) React runs the previous effect's cleanup, then the new
effect. -/
def rerenderQuery (env : String → Bool) (q : String) (s : HookState) : HookState :=
  mountEffect env q (cleanup s)

/-- `useMatchMedia` (lines 35-59): the guard throws on a missing
(null / undefined) or empty query — JavaScript falsiness of a string
argument — before any hook state exists; otherwise the hook mounts and
returns the mounted state. -/
def useMatchMedia (env : String → Bool) (mediaQuery : Option String) :
    Except String HookState :=
  match mediaQuery with
  | none => .error "Jambonz UI useMatchMedia requires valid Media Query"
  | some q =>
    if q = "" then .error "Jambonz UI useMatchMedia requires valid Media Query"
    else .ok (mountEffect env q hookInit)

/-- The classnames collaborator: the keys of the class object whose
value is true, in insertion order. -/
def classNames (classes : List (String × Bool)) : List String :=
  (classes.filter (fun p => p.2)).map (fun p => p.1)

/-- The variant class composition pattern shared by `Button` (lines
167-175) and `Icon` (lines 187-196): the base token, the main-style
modifier, and the sub-style modifier exactly when a (truthy, hence
non-empty) sub-style was supplied. -/
def composeVariant (base mainStyle : String) (subStyle : Option String) : List String :=
  [base, base ++ "--" ++ mainStyle] ++
    (match subStyle with
     | some sub =>
       if sub = "" then [] else [base ++ "--" ++ mainStyle ++ "--" ++ sub]
     | none => [])

/-- `Button` (lines 167-182): its class object; the third key is added
exactly when `subStyle` is truthy. -/
def buttonClasses (mainStyle : String) (subStyle : Option String) : List (String × Bool) :=
  [("btn", true), ("btn--" ++ mainStyle, true)] ++
    (match subStyle with
     | some sub =>
       if sub = "" then [] else [("btn--" ++ mainStyle ++ "--" ++ sub, true)]
     | none => [])

/-- `Icon` (lines 187-196): its class object, same pattern with base
`icon`. -/
def iconClasses (mainStyle : String) (subStyle : Option String) : List (String × Bool) :=
  [("icon", true), ("icon--" ++ mainStyle, true)] ++
    (match subStyle with
     | some sub =>
       if sub = "" then [] else [("icon--" ++ mainStyle ++ "--" ++ sub, true)]
     | none => [])

/-- The possible render results of `Icon`: nothing (the JS `null`
return), the bare feather component (inline), or the component wrapped
in a styled div. -/
inductive IconResult where
  | noRender
  | inlineIcon (component : String)
  | styledIcon (classes : List String) (component : String)
deriving DecidableEq

/-- `Icon` (lines 187-213): look the name up in the react-feather
registry (abstracted as any name-to-component map); on a miss render
nothing; otherwise render the component inline or wrapped according to
`mainStyle`. -/
def IconView (registry : String → Option String) (name mainStyle : String)
    (subStyle : Option String) : IconResult :=
  match registry name with
  | none => .noRender
  | some component =>
    if mainStyle ≠ "inline" then
      .styledIcon (classNames (iconClasses mainStyle subStyle)) component
    else .inlineIcon component

/-- JavaScript template-literal coercion of a possibly-absent string
field: an absent field reads as `undefined`, which interpolates as the
text `undefined`. -/
def templateStr : Option String → String
  | some s => s
  | none => "undefined"

/-- `Latest` (lines 106-112): its class object; the label modifier key
is built unconditionally by interpolating `data.label`. -/
def latestClasses (label : Option String) : List (String × Bool) :=
  [("latest", true), ("latest--" ++ templateStr label, true),
   ("pad", true), ("bg-pink", true)]

/-- `jsSplit` never produces the empty list of pieces. -/
theorem jsSplit_ne_nil (sep : Char) (l : List Char) : jsSplit sep l ≠ [] := by
  cases l with
  | nil => simp [jsSplit]
  | cons c cs =>
    simp only [jsSplit]
    cases h : jsSplit sep cs with
    | nil => simp
    | cons w ws =>
      dsimp only
      split <;> simp

/-- Joining after prepending a character to the first piece prepends the
character to the joined string. -/
theorem jsJoin_cons_head (sep c : Char) (w : List Char) (ws : List (List Char)) :
    jsJoin sep ((c :: w) :: ws) = c :: jsJoin sep (w :: ws) := by
  cases ws <;> simp [jsJoin]

/-- Joining after prepending an empty piece prepends the separator. -/
theorem jsJoin_nil_head (sep : Char) (w : List Char) (ws : List (List Char)) :
    jsJoin sep ([] :: w :: ws) = sep :: jsJoin sep (w :: ws) := by
  simp [jsJoin]

/-- `split(' ').join('-')` is the same as replacing every occurrence of
the space by a hyphen. -/
theorem jsJoin_jsSplit (l : List Char) :
    jsJoin '-' (jsSplit ' ' l) = l.map (fun c => if c = ' ' then '-' else c) := by
  induction l with
  | nil => rfl
  | cons c cs ih =>
    obtain ⟨w, ws, hw⟩ : ∃ w ws, jsSplit ' ' cs = w :: ws := by
      cases h : jsSplit ' ' cs with
      | nil => exact absurd h (jsSplit_ne_nil _ _)
      | cons w ws => exact ⟨w, ws, rfl⟩
    rw [hw] at ih
    simp only [jsSplit, hw, List.map_cons]
    by_cases hc : c = ' '
    · subst hc
      simp [jsJoin_nil_head, ih]
    · simp [hc, jsJoin_cons_head, ih]

/-- C9: for every string key, `normalizeSlug key` is `key` lower-cased
with each space replaced by a hyphen; in particular
`normalizeSlug "Hello World" = "hello-world"`,
`normalizeSlug "A B C" = "a-b-c"` and `normalizeSlug "" = ""`. -/
theorem normalizeSlug_spec :
    (∀ key : String, (normalizeSlug key).data
      = (jsToLower key.data).map (fun c => if c = ' ' then '-' else c)) ∧
    normalizeSlug "Hello World" = "hello-world" ∧
    normalizeSlug "A B C" = "a-b-c" ∧
    normalizeSlug "" = "" := by
  refine ⟨fun key => jsJoin_jsSplit _, ?_, ?_, ?_⟩
  · decide
  · decide
  · rfl

/-- C4: a non-array input is wrapped into a one-element array holding
exactly that input; an array input is returned unchanged; hence
`normalizeSubtext` is idempotent. -/
theorem normalizeSubtext_spec (x : JSValue) :
    (isJsArray x = false → normalizeSubtext x = .arr [x]) ∧
    (∀ l : List JSValue, normalizeSubtext (.arr l) = .arr l) ∧
    normalizeSubtext (normalizeSubtext x) = normalizeSubtext x := by
  refine ⟨fun h => ?_, fun l => ?_, ?_⟩
  · simp [normalizeSubtext, h]
  · simp [normalizeSubtext, isJsArray]
  · cases x <;> simp [normalizeSubtext, isJsArray]

/-- C4 witness: `normalizeSubtext` at the concrete non-array input
`"hello"` yields the one-element array holding `"hello"`. -/
theorem normalizeSubtext_spec_witness :
    normalizeSubtext (.str "hello") = .arr [.str "hello"] :=
  (normalizeSubtext_spec (.str "hello")).1 rfl

/-- C2 counterexample: `normalizeSlug` applied to the non-string value
`null` raises a `TypeError` (`null.toLowerCase()` is its first step), so
not every normalization function accepts every input value. -/
theorem normalize_total_counterexample :
    exceptOk (normalizeSlugJS JSValue.null) = false := rfl

/-- C2 amended: `normalizeSubtext` never raises on any input value;
`normalizeSlug` and `normalizeTextLayout` never raise on any string
input (their intended domain), but raise a `TypeError` on non-string
inputs instead of coercing them. -/
theorem normalize_total_amended :
    (∀ v : JSValue, exceptOk (normalizeSubtextJS v) = true) ∧
    (∀ s : String, exceptOk (normalizeSlugJS (.str s)) = true ∧
      exceptOk (normalizeTextLayoutJS (.str s)) = true) :=
  ⟨fun _ => rfl, fun _ => ⟨rfl, rfl⟩⟩

/-- C1: with a query that currently matches, the returned value is true
at the first read after mount, and a later change event reporting
non-match flips it to false. -/
theorem useMatchMedia_first_read_spec (env : String → Bool) (q : String)
    (h : env q = true) :
    (mountEffect env q hookInit).mobile = true ∧
    (handleChange q false (mountEffect env q hookInit)).mobile = false := by
  constructor
  · simp [mountEffect, h]
  · simp [handleChange, mountEffect]

/-- C1 witness: a platform on which every query matches, at the mobile
query used by `useMobileMedia`. -/
theorem useMatchMedia_first_read_spec_witness :
    (mountEffect (fun _ => true) "(max-width: 896px)" hookInit).mobile = true ∧
    (handleChange "(max-width: 896px)" false
      (mountEffect (fun _ => true) "(max-width: 896px)" hookInit)).mobile = false :=
  useMatchMedia_first_read_spec (fun _ => true) "(max-width: 896px)" rfl

/-- C3: a missing or empty query makes `useMatchMedia` raise
synchronously — the error branch produces no hook state and registers no
listener — while any non-empty query does not raise and yields the
mounted state. -/
theorem useMatchMedia_guard_spec (env : String → Bool) :
    exceptOk (useMatchMedia env none) = false ∧
    exceptOk (useMatchMedia env (some "")) = false ∧
    ∀ q : String, q ≠ "" →
      useMatchMedia env (some q) = .ok (mountEffect env q hookInit) := by
  refine ⟨rfl, rfl, fun q hq => ?_⟩
  simp [useMatchMedia, hq]

/-- C3 witness: the guard accepts the concrete non-empty mobile query. -/
theorem useMatchMedia_guard_spec_witness :
    useMatchMedia (fun _ => true) (some "(max-width: 896px)")
      = .ok (mountEffect (fun _ => true) "(max-width: 896px)" hookInit) :=
  (useMatchMedia_guard_spec (fun _ => true)).2.2 "(max-width: 896px)" (by decide)

/-- Once no listener is registered, no sequence of change events alters
the hook state. -/
theorem applyEvents_no_listener (evs : List (String × Bool)) : ∀ s : HookState,
    s.listener = none → applyEvents evs s = s := by
  induction evs with
  | nil => intro s _; rfl
  | cons e evs ih =>
    intro s h
    show applyEvents evs (handleChange e.1 e.2 s) = s
    rw [show handleChange e.1 e.2 s = s by simp [handleChange, h]]
    exact ih s h

/-- C8: the cleanup deregisters the listener; after teardown no sequence
of further change events alters the state; a re-render with a changed
query deregisters the old listener and leaves exactly the new one, so
events on the old query no longer update the value. -/
theorem useMatchMedia_pairing_spec :
    (∀ s : HookState, (cleanup s).listener = none) ∧
    (∀ (s : HookState) (evs : List (String × Bool)),
      applyEvents evs (cleanup s) = cleanup s) ∧
    (∀ (env : String → Bool) (q : String) (s : HookState),
      (rerenderQuery env q s).listener = some q) ∧
    (∀ (env : String → Bool) (qOld qNew : String) (s : HookState) (m : Bool),
      qOld ≠ qNew →
      handleChange qOld m (rerenderQuery env qNew s) = rerenderQuery env qNew s) := by
  refine ⟨fun s => rfl, fun s evs => applyEvents_no_listener evs _ rfl,
    fun env q s => rfl, ?_⟩
  intro env qOld qNew s m hne
  simp [handleChange, rerenderQuery, mountEffect, (Ne.symm hne)]

/-- C8 witness: after re-subscribing to the mobile query, an event on a
different old query leaves the state untouched. -/
theorem useMatchMedia_pairing_spec_witness :
    handleChange "(max-width: 600px)" true
        (rerenderQuery (fun _ => true) "(max-width: 896px)" hookInit)
      = rerenderQuery (fun _ => true) "(max-width: 896px)" hookInit :=
  useMatchMedia_pairing_spec.2.2.2 (fun _ => true) "(max-width: 600px)"
    "(max-width: 896px)" hookInit true (by decide)

/-- C5: the variant composer yields exactly base and base--mainStyle
without a sub-style, and additionally base--mainStyle--subStyle with
one; the Button and Icon class objects flatten to exactly this
composition. -/
theorem variant_compose_spec :
    (∀ base main : String,
      composeVariant base main none = [base, base ++ "--" ++ main]) ∧
    (∀ base main sub : String, sub ≠ "" →
      composeVariant base main (some sub)
        = [base, base ++ "--" ++ main, base ++ "--" ++ main ++ "--" ++ sub]) ∧
    composeVariant "btn" "fill" none = ["btn", "btn--fill"] ∧
    composeVariant "btn" "fill" (some "small") = ["btn", "btn--fill", "btn--fill--small"] ∧
    (∀ main sub, classNames (buttonClasses main sub) = composeVariant "btn" main sub) ∧
    (∀ main sub, classNames (iconClasses main sub) = composeVariant "icon" main sub) := by
  refine ⟨fun base main => by simp [composeVariant],
    fun base main sub hs => by simp [composeVariant, hs], by decide, by decide,
    fun main sub => ?_, fun main sub => ?_⟩
  · cases sub with
    | none => simp [classNames, buttonClasses, composeVariant]
    | some s =>
      by_cases hs : s = "" <;> simp [classNames, buttonClasses, composeVariant, hs]
  · cases sub with
    | none => simp [classNames, iconClasses, composeVariant]
    | some s =>
      by_cases hs : s = "" <;> simp [classNames, iconClasses, composeVariant, hs]

/-- C5 witness: composition with a present sub-style at concrete
tokens. -/
theorem variant_compose_spec_witness :
    composeVariant "btn" "outline" (some "small")
      = ["btn", "btn--outline", "btn--outline--small"] :=
  variant_compose_spec.2.1 "btn" "outline" "small" (by decide)

/-- C7: an unregistered icon name produces the empty render (and no
error) regardless of the style arguments; a registered name always
produces a non-empty render. -/
theorem icon_unknown_spec (registry : String → Option String)
    (name mainStyle : String) (subStyle : Option String) :
    (registry name = none → IconView registry name mainStyle subStyle = .noRender) ∧
    (∀ component, registry name = some component →
      IconView registry name mainStyle subStyle ≠ .noRender) := by
  constructor
  · intro h
    simp [IconView, h]
  · intro component h
    simp only [IconView, h]
    split <;> simp

/-- C7 witness: the empty registry at a concrete name and concrete
styles renders nothing. -/
theorem icon_unknown_spec_witness :
    IconView (fun _ => none) "Activity" "fill" (some "small") = .noRender :=
  (icon_unknown_spec (fun _ => none) "Activity" "fill" (some "small")).1 rfl

/-- C10: `Latest` always carries the class `latest--` followed by the
interpolated label; with the label absent that class is the literal
`latest--undefined`, not an omitted modifier. -/
theorem latest_label_class_spec :
    (∀ label : Option String,
      ("latest--" ++ templateStr label) ∈ classNames (latestClasses label)) ∧
    "latest--undefined" ∈ classNames (latestClasses none) := by
  constructor
  · intro label
    simp [latestClasses, classNames]
  · simp [latestClasses, classNames, templateStr]

/-- Unfolding `replaceOpenH` on a list of four or more characters. -/
theorem replaceOpenH_cons4 (a b c d : Char) (rest2 : List Char) :
    replaceOpenH (a :: b :: c :: d :: rest2)
      = if a == '<' && b == 'h' && isHeadDigit c && d == '>' then
          openIns c ++ replaceOpenH rest2
        else a :: replaceOpenH (b :: c :: d :: rest2) := rfl

/-- Unfolding `replaceCloseH` on a list of five or more characters. -/
theorem replaceCloseH_cons5 (a b c d e : Char) (rest2 : List Char) :
    replaceCloseH (a :: b :: c :: d :: e :: rest2)
      = if a == '<' && b == '/' && c == 'h' && isHeadDigit d && e == '>' then
          closeIns ++ replaceCloseH rest2
        else a :: replaceCloseH (b :: c :: d :: e :: rest2) := rfl

/-- Unfolding `specHeadingRewrite` on a list of five or more characters. -/
theorem specRewrite_cons5 (a b c d e : Char) (rest3 : List Char) :
    specHeadingRewrite (a :: b :: c :: d :: e :: rest3)
      = if a == '<' && b == 'h' && isHeadDigit c && d == '>' then
          openIns c ++ specHeadingRewrite (e :: rest3)
        else if a == '<' && b == '/' && c == 'h' && isHeadDigit d && e == '>' then
          closeIns ++ specHeadingRewrite rest3
        else a :: specHeadingRewrite (b :: c :: d :: e :: rest3) := rfl

/-- Unfolding `specHeadingRewrite` on a list of exactly four characters. -/
theorem specRewrite_cons4 (a b c d : Char) :
    specHeadingRewrite (a :: b :: c :: d :: [])
      = if a == '<' && b == 'h' && isHeadDigit c && d == '>' then
          openIns c ++ specHeadingRewrite []
        else a :: specHeadingRewrite (b :: c :: d :: []) := rfl

/-- A heading digit is not the character the patterns open with. -/
theorem isHeadDigit_ne_lt (c : Char) (hc : isHeadDigit c = true) :
    (c == '<') = false := by
  cases hb : c == '<'
  · rfl
  · have hcc : c = '<' := eq_of_beq hb
    subst hcc
    exact absurd hc (by decide)

/-- The open pattern cannot match at a head other than the angle
bracket. -/
theorem openMatchAt_head (a : Char) (X : List Char) (h : (a == '<') = false) :
    openMatchAt (a :: X) = false := by
  rcases X with _ | ⟨b, _ | ⟨c, _ | ⟨d, X2⟩⟩⟩
  · rfl
  · rfl
  · rfl
  · simp [openMatchAt, h]

/-- The close pattern cannot match at a head other than the angle
bracket. -/
theorem closeMatchAt_head (a : Char) (X : List Char) (h : (a == '<') = false) :
    closeMatchAt (a :: X) = false := by
  rcases X with _ | ⟨b, _ | ⟨c, _ | ⟨d, _ | ⟨e, X2⟩⟩⟩⟩
  · rfl
  · rfl
  · rfl
  · rfl
  · simp [closeMatchAt, h]

/-- The close pattern cannot match when the second character is not the
slash. -/
theorem closeMatchAt_head2 (a b : Char) (X : List Char) (h : (b == '/') = false) :
    closeMatchAt (a :: b :: X) = false := by
  rcases X with _ | ⟨c, _ | ⟨d, _ | ⟨e, X2⟩⟩⟩
  · rfl
  · rfl
  · rfl
  · simp [closeMatchAt, h]

/-- When the open pattern matches at the head, the list has the matched
shape. -/
theorem openMatchAt_shape (y : Char) (m : List Char)
    (h : openMatchAt (y :: m) = true) :
    ∃ b c d rest2, m = b :: c :: d :: rest2 ∧
      (y == '<' && b == 'h' && isHeadDigit c && d == '>') = true := by
  rcases m with _ | ⟨b, _ | ⟨c, _ | ⟨d, rest2⟩⟩⟩
  · exact absurd h (by simp [openMatchAt])
  · exact absurd h (by simp [openMatchAt])
  · exact absurd h (by simp [openMatchAt])
  · exact ⟨b, c, d, rest2, rfl, h⟩

/-- When the close pattern matches at the head, the list has the matched
shape. -/
theorem closeMatchAt_shape (y : Char) (m : List Char)
    (h : closeMatchAt (y :: m) = true) :
    ∃ b c d e rest2, m = b :: c :: d :: e :: rest2 ∧
      (y == '<' && b == '/' && c == 'h' && isHeadDigit d && e == '>') = true := by
  rcases m with _ | ⟨b, _ | ⟨c, _ | ⟨d, _ | ⟨e, rest2⟩⟩⟩⟩
  · exact absurd h (by simp [closeMatchAt])
  · exact absurd h (by simp [closeMatchAt])
  · exact absurd h (by simp [closeMatchAt])
  · exact absurd h (by simp [closeMatchAt])
  · exact ⟨b, c, d, e, rest2, rfl, h⟩

/-- The open scan copies one character when the pattern does not match
at the head. -/
theorem replaceOpenH_no_match (a : Char) (rest : List Char)
    (h : openMatchAt (a :: rest) = false) :
    replaceOpenH (a :: rest) = a :: replaceOpenH rest := by
  rcases rest with _ | ⟨b, _ | ⟨c, _ | ⟨d, rest2⟩⟩⟩
  · rfl
  · rfl
  · rfl
  · simp only [openMatchAt] at h
    rw [replaceOpenH_cons4, h]
    simp

/-- The open scan rewrites when the pattern matches at the head. -/
theorem replaceOpenH_match (a b c d : Char) (rest2 : List Char)
    (h : (a == '<' && b == 'h' && isHeadDigit c && d == '>') = true) :
    replaceOpenH (a :: b :: c :: d :: rest2) = openIns c ++ replaceOpenH rest2 := by
  rw [replaceOpenH_cons4, h]
  simp

/-- The close scan copies one character when the pattern does not match
at the head. -/
theorem replaceCloseH_no_match (a : Char) (rest : List Char)
    (h : closeMatchAt (a :: rest) = false) :
    replaceCloseH (a :: rest) = a :: replaceCloseH rest := by
  rcases rest with _ | ⟨b, _ | ⟨c, _ | ⟨d, _ | ⟨e, rest2⟩⟩⟩⟩
  · rfl
  · rfl
  · rfl
  · rfl
  · simp only [closeMatchAt] at h
    rw [replaceCloseH_cons5, h]
    simp

/-- The close scan rewrites when the pattern matches at the head. -/
theorem replaceCloseH_match (a b c d e : Char) (rest2 : List Char)
    (h : (a == '<' && b == '/' && c == 'h' && isHeadDigit d && e == '>') = true) :
    replaceCloseH (a :: b :: c :: d :: e :: rest2) = closeIns ++ replaceCloseH rest2 := by
  rw [replaceCloseH_cons5, h]
  simp

/-- The spec rewrite replaces an open tag when its pattern matches at
the head. -/
theorem specRewrite_open_match (a b c d : Char) (rest2 : List Char)
    (h : (a == '<' && b == 'h' && isHeadDigit c && d == '>') = true) :
    specHeadingRewrite (a :: b :: c :: d :: rest2)
      = openIns c ++ specHeadingRewrite rest2 := by
  rcases rest2 with _ | ⟨e, rest3⟩
  · rw [specRewrite_cons4, h]
    simp
  · rw [specRewrite_cons5, h]
    simp

/-- The spec rewrite replaces a close tag when only its pattern matches
at the head. -/
theorem specRewrite_close_match (a b c d e : Char) (rest3 : List Char)
    (h1 : (a == '<' && b == 'h' && isHeadDigit c && d == '>') = false)
    (h2 : (a == '<' && b == '/' && c == 'h' && isHeadDigit d && e == '>') = true) :
    specHeadingRewrite (a :: b :: c :: d :: e :: rest3)
      = closeIns ++ specHeadingRewrite rest3 := by
  rw [specRewrite_cons5, h1, h2]
  simp

/-- The spec rewrite copies one character when neither pattern matches
at the head. -/
theorem specRewrite_no_match (a : Char) (rest : List Char)
    (hom : openMatchAt (a :: rest) = false)
    (hcm : closeMatchAt (a :: rest) = false) :
    specHeadingRewrite (a :: rest) = a :: specHeadingRewrite rest := by
  rcases rest with _ | ⟨b, _ | ⟨c, _ | ⟨d, _ | ⟨e, rest3⟩⟩⟩⟩
  · rfl
  · rfl
  · rfl
  · simp only [openMatchAt] at hom
    rw [specRewrite_cons4, hom]
    simp
  · simp only [openMatchAt] at hom
    simp only [closeMatchAt] at hcm
    rw [specRewrite_cons5, hom, hcm]
    simp

/-- The close scan distributes over a prefix containing no angle-bracket
opener. -/
theorem replaceCloseH_append_no_lt (p : List Char) (Y : List Char)
    (hp : ∀ x ∈ p, (x == '<') = false) :
    replaceCloseH (p ++ Y) = p ++ replaceCloseH Y := by
  induction p with
  | nil => rfl
  | cons x p ih =>
    have hx : (x == '<') = false := hp x (List.mem_cons_self x p)
    have hrest : ∀ y ∈ p, (y == '<') = false :=
      fun y hy => hp y (List.mem_cons_of_mem x hy)
    rw [List.cons_append, replaceCloseH_no_match x _ (closeMatchAt_head x _ hx),
      ih hrest, List.cons_append]

/-- The close scan passes over an inserted opening container tag
unchanged: the inserted text contains no close-pattern start. -/
theorem replaceCloseH_openIns (c : Char) (hc : isHeadDigit c = true) (Y : List Char) :
    replaceCloseH (openIns c ++ Y) = openIns c ++ replaceCloseH Y := by
  have hc' : (c == '<') = false := isHeadDigit_ne_lt c hc
  have hmem : ∀ x ∈ ('d' :: 'i' :: 'v' :: ' ' :: 'c' :: 'l' :: 'a' :: 's' :: 's'
      :: '=' :: '"' :: 'h' :: c :: '"' :: '>' :: ([] : List Char)),
      (x == '<') = false := by
    intro x hx
    simp only [List.mem_cons, List.not_mem_nil, or_false] at hx
    rcases hx with rfl | rfl | rfl | rfl | rfl | rfl | rfl | rfl | rfl | rfl | rfl | rfl | rfl | rfl | rfl
    all_goals first | exact hc' | decide
  have happ := replaceCloseH_append_no_lt ('d' :: 'i' :: 'v' :: ' ' :: 'c' :: 'l'
    :: 'a' :: 's' :: 's' :: '=' :: '"' :: 'h' :: c :: '"' :: '>' :: []) Y hmem
  have hhd : closeMatchAt ('<' :: (('d' :: 'i' :: 'v' :: ' ' :: 'c' :: 'l' :: 'a'
      :: 's' :: 's' :: '=' :: '"' :: 'h' :: c :: '"' :: '>' :: []) ++ Y)) = false := by
    rw [List.cons_append]
    exact closeMatchAt_head2 '<' 'd' _ (by decide)
  show replaceCloseH ('<' :: (('d' :: 'i' :: 'v' :: ' ' :: 'c' :: 'l' :: 'a' :: 's'
      :: 's' :: '=' :: '"' :: 'h' :: c :: '"' :: '>' :: []) ++ Y))
    = '<' :: (('d' :: 'i' :: 'v' :: ' ' :: 'c' :: 'l' :: 'a' :: 's' :: 's' :: '='
      :: '"' :: 'h' :: c :: '"' :: '>' :: []) ++ replaceCloseH Y)
  rw [replaceCloseH_no_match '<' _ hhd, happ]

/-- Inversion of the open scan: output starting with a character other
than the angle bracket comes from an input starting with that same
character. -/
theorem replaceOpenH_eq_cons (m : List Char) (x : Char) (T : List Char)
    (hx : (x == '<') = false) (h : replaceOpenH m = x :: T) :
    ∃ m2, m = x :: m2 ∧ T = replaceOpenH m2 := by
  rcases m with _ | ⟨y, m2⟩
  · exact absurd h (by simp [replaceOpenH])
  · cases hm : openMatchAt (y :: m2) with
    | false =>
      rw [replaceOpenH_no_match y m2 hm] at h
      injection h with h1 h2
      subst h1
      exact ⟨m2, rfl, h2.symm⟩
    | true =>
      obtain ⟨b, c, d, rest2, rfl, hcond⟩ := openMatchAt_shape y m2 hm
      rw [replaceOpenH_match y b c d rest2 hcond] at h
      rw [show openIns c ++ replaceOpenH rest2
        = '<' :: (('d' :: 'i' :: 'v' :: ' ' :: 'c' :: 'l' :: 'a' :: 's' :: 's'
          :: '=' :: '"' :: 'h' :: c :: '"' :: '>' :: []) ++ replaceOpenH rest2) from rfl] at h
      injection h with h1 _
      subst h1
      exact absurd hx (by decide)

/-- The open scan cannot create a close-pattern match at a position
where the original text had none. -/
theorem closeMatchAt_replaceOpenH (a : Char) (rest : List Char)
    (h : closeMatchAt (a :: rest) = false) :
    closeMatchAt (a :: replaceOpenH rest) = false := by
  cases ha : a == '<' with
  | false => exact closeMatchAt_head a _ ha
  | true =>
    have ha' : a = '<' := eq_of_beq ha
    subst ha'
    cases hcm : closeMatchAt ('<' :: replaceOpenH rest) with
    | false => rfl
    | true =>
      obtain ⟨b, c, d, e, X2, hshape, hcond⟩ :=
        closeMatchAt_shape '<' (replaceOpenH rest) hcm
      have hcomp := hcond
      simp only [Bool.and_eq_true] at hcomp
      obtain ⟨⟨⟨⟨_, hb⟩, hcch⟩, hd⟩, he⟩ := hcomp
      have hb' : b = '/' := eq_of_beq hb
      have hc' : c = 'h' := eq_of_beq hcch
      have he' : e = '>' := eq_of_beq he
      subst hb' hc' he'
      obtain ⟨m1, rfl, h1⟩ := replaceOpenH_eq_cons rest '/' _ (by decide) hshape
      obtain ⟨m2, rfl, h2⟩ := replaceOpenH_eq_cons m1 'h' _ (by decide) h1.symm
      obtain ⟨m3, rfl, h3⟩ :=
        replaceOpenH_eq_cons m2 d _ (isHeadDigit_ne_lt d hd) h2.symm
      obtain ⟨m4, rfl, _⟩ := replaceOpenH_eq_cons m3 '>' _ (by decide) h3.symm
      simp [closeMatchAt, hd] at h

/-- The two chained global replaces compute the single-scan rewrite, on
inputs of bounded length. -/
theorem replaceClose_replaceOpen_aux : ∀ (n : Nat) (l : List Char), l.length ≤ n →
    replaceCloseH (replaceOpenH l) = specHeadingRewrite l := by
  intro n
  induction n with
  | zero =>
    intro l hl
    rcases l with _ | ⟨a, rest⟩
    · rfl
    · simp at hl
  | succ n ih =>
    intro l hl
    rcases l with _ | ⟨a, rest⟩
    · rfl
    · cases hom : openMatchAt (a :: rest) with
      | true =>
        obtain ⟨b, c, d, rest2, rfl, hcond⟩ := openMatchAt_shape a rest hom
        have hcomp := hcond
        simp only [Bool.and_eq_true] at hcomp
        have hc : isHeadDigit c = true := hcomp.1.2
        rw [replaceOpenH_match a b c d rest2 hcond, replaceCloseH_openIns c hc,
          specRewrite_open_match a b c d rest2 hcond]
        have hlen : rest2.length ≤ n := by
          simp only [List.length_cons] at hl
          omega
        exact congrArg (openIns c ++ ·) (ih rest2 hlen)
      | false =>
        cases hcm : closeMatchAt (a :: rest) with
        | true =>
          obtain ⟨b, c, d, e, X2, rfl, hcond⟩ := closeMatchAt_shape a rest hcm
          have hcomp := hcond
          simp only [Bool.and_eq_true] at hcomp
          obtain ⟨⟨⟨⟨ha, hb⟩, hcch⟩, hd⟩, he⟩ := hcomp
          have ha' : a = '<' := eq_of_beq ha
          have hb' : b = '/' := eq_of_beq hb
          have hc' : c = 'h' := eq_of_beq hcch
          have he' : e = '>' := eq_of_beq he
          subst ha' hb' hc' he'
          rw [replaceOpenH_no_match _ _ hom,
            replaceOpenH_no_match _ _ (openMatchAt_head '/' _ (by decide)),
            replaceOpenH_no_match _ _ (openMatchAt_head 'h' _ (by decide)),
            replaceOpenH_no_match _ _ (openMatchAt_head d _ (isHeadDigit_ne_lt d hd)),
            replaceOpenH_no_match _ _ (openMatchAt_head '>' _ (by decide))]
          have hcl : ('<' == '<' && '/' == '/' && 'h' == 'h' && isHeadDigit d
              && '>' == '>') = true := by
            simp [hd]
          rw [replaceCloseH_match '<' '/' 'h' d '>' (replaceOpenH X2) hcl,
            specRewrite_close_match '<' '/' 'h' d '>' X2 hom hcond]
          have hlen : X2.length ≤ n := by
            simp only [List.length_cons] at hl
            omega
          exact congrArg (closeIns ++ ·) (ih X2 hlen)
        | false =>
          rw [replaceOpenH_no_match a rest hom,
            replaceCloseH_no_match a _ (closeMatchAt_replaceOpenH a rest hcm),
            specRewrite_no_match a rest hom hcm]
          have hlen : rest.length ≤ n := by
            simp only [List.length_cons] at hl
            omega
          exact congrArg (a :: ·) (ih rest hlen)

/-- The two chained global replaces of `normalizeTextLayout` compute the
single-scan rewrite described by the spec. -/
theorem replaceClose_replaceOpen (l : List Char) :
    replaceCloseH (replaceOpenH l) = specHeadingRewrite l :=
  replaceClose_replaceOpen_aux l.length l (Nat.le_refl _)

/-- C6: `normalizeTextLayout` replaces exactly the occurrences of
`<hN>` (N in 1..6) by the opening container tag with class `hN` and the
occurrences of `</hN>` by the closing container tag, leaving every
other character — inner text, attribute-bearing heading tags, out of
range heading numbers — unchanged. -/
theorem normalizeTextLayout_spec :
    (∀ html : String, (normalizeTextLayout html).data = specHeadingRewrite html.data) ∧
    normalizeTextLayout "<h2>Title</h2>" = "<div class=\"h2\">Title</div>" ∧
    normalizeTextLayout "<h2 id=\"x\">Title</h2>" = "<h2 id=\"x\">Title</div>" ∧
    normalizeTextLayout "<h1>a</h1><h6>b</h6>"
      = "<div class=\"h1\">a</div><div class=\"h6\">b</div>" ∧
    normalizeTextLayout "<h7>x</h7>" = "<h7>x</h7>" := by
  refine ⟨fun html => replaceClose_replaceOpen html.data, ?_, ?_, ?_, ?_⟩
  · decide
  · decide
  · decide
  · decide
